import Mathlib

/-!
# Turn arbitration and session synchronization of the chess app

Shallow embedding of the repository's turn-arbitration / session-synchronization
core (`src/src/App.jsx`) together with the static evaluation of the search
opponent (`src/unnamed/part_004`, i.e. `src/ai/engine.js`).

The rules engine (the `chess.js` dependency) and the peer transport (`trystero`)
are external collaborators of the repository; the spec declares them opaque and
fixes their interface in its section 6.  Following the spec's interface
description, fallible engine operations return result values (`Option`) and
never raise: `applyMove(position, move) -> (newPosition | rejected)`.  The
concrete move semantics used for closed scenarios is a faithful executable chess
model (piece movement, path obstruction, check, checkmate, stalemate,
promotion); castling, en passant and the 50-move/threefold draw rules are not
exercised by any scenario of the spec and are omitted from the model.

React `useState` setters are modelled as in-place record updates applied in
program order (sequential semantics); outbound network sends are collected in an
emitted-message list.
-/

/-- The two piece colors, `"w"` and `"b"` of the source. -/
inductive Color where
  | w
  | b
deriving DecidableEq, Repr, Fintype

/-- Color of the other side. -/
def Color.other : Color → Color
  | .w => .b
  | .b => .w

/-- Piece kinds, the `type` field of `chess.js` pieces. -/
inductive PieceType where
  | k
  | q
  | r
  | b
  | n
  | p
deriving DecidableEq, Repr, Fintype

/-- A piece as `chess.js` reports it: a color and a kind. -/
structure Piece where
  color : Color
  ptype : PieceType
deriving DecidableEq, Repr

/-- A board square; `file`/`rank` are 0-based (`e2` is file 4, rank 1). -/
structure Square where
  file : Fin 8
  rank : Fin 8
deriving DecidableEq, Repr, Fintype

/-- Build a square from raw numbers (callers stay in range; `%` totalizes). -/
def mkSq (f r : Nat) : Square :=
  ⟨⟨f % 8, Nat.mod_lt f (by decide)⟩, ⟨r % 8, Nat.mod_lt r (by decide)⟩⟩

/-- Linear index of a square in the 64-entry board list. -/
def sqIdx (sq : Square) : Nat := sq.rank.val * 8 + sq.file.val

/-- A board is the 64 squares in rank-major order, each possibly holding a piece. -/
abbrev Board := List (Option Piece)

/-- The board with no pieces. -/
def emptyBoard : Board := List.replicate 64 none

/-- `game.get(square)` of the engine interface. -/
def pieceAt (bd : Board) (sq : Square) : Option Piece := bd.getD (sqIdx sq) none

/-- Place (or clear) a square. -/
def setSq (bd : Board) (sq : Square) (p : Option Piece) : Board := bd.set (sqIdx sq) p

/-- All 64 squares. -/
def squaresList : List Square :=
  (List.range 8).flatMap (fun r => (List.range 8).map (fun f => mkSq f r))

/-- Signed file coordinate. -/
def fileI (sq : Square) : Int := sq.file.val

/-- Signed rank coordinate. -/
def rankI (sq : Square) : Int := sq.rank.val

/-- Sign of a coordinate delta: the unit step of a sliding ray. -/
def stepDir (d : Int) : Int := if 0 < d then 1 else if d < 0 then -1 else 0

/-- Every intermediate square of the straight/diagonal ray from `f` to `t`
(exclusive at both ends) is empty. -/
def pathClear (bd : Board) (f t : Square) : Bool :=
  let df := fileI t - fileI f
  let dr := rankI t - rankI f
  let steps := max df.natAbs dr.natAbs
  (List.range (steps - 1)).all fun k =>
    let k1 : Int := (k : Int) + 1
    (pieceAt bd (mkSq (fileI f + stepDir df * k1).toNat (rankI f + stepDir dr * k1).toNat)).isNone

/-- Knight move pattern. -/
def knightPattern (f t : Square) : Bool :=
  let a := (fileI t - fileI f).natAbs
  let b := (rankI t - rankI f).natAbs
  (a == 1 && b == 2) || (a == 2 && b == 1)

/-- King move pattern (one step in any direction). -/
def kingPattern (f t : Square) : Bool :=
  let a := (fileI t - fileI f).natAbs
  let b := (rankI t - rankI f).natAbs
  max a b == 1

/-- Rook move pattern. -/
def rookPattern (f t : Square) : Bool :=
  (fileI t == fileI f || rankI t == rankI f) && f ≠ t

/-- Bishop move pattern. -/
def bishopPattern (f t : Square) : Bool :=
  (fileI t - fileI f).natAbs == (rankI t - rankI f).natAbs && f ≠ t

/-- Pawn advance direction. -/
def pawnDir : Color → Int
  | .w => 1
  | .b => -1

/-- Does the piece `pc` standing on `f` attack square `t`?  (Used for check
detection; a pawn attacks only diagonally.) -/
def attacks (bd : Board) (f t : Square) (pc : Piece) : Bool :=
  match pc.ptype with
  | .p => (rankI t - rankI f == pawnDir pc.color) && (fileI t - fileI f).natAbs == 1
  | .n => knightPattern f t
  | .k => kingPattern f t
  | .b => bishopPattern f t && pathClear bd f t
  | .r => rookPattern f t && pathClear bd f t
  | .q => (rookPattern f t || bishopPattern f t) && pathClear bd f t

/-- Square of the king of color `c`. -/
def kingSquare (bd : Board) (c : Color) : Option Square :=
  squaresList.find? fun sq => pieceAt bd sq == some ⟨c, PieceType.k⟩

/-- Is the king of color `c` attacked?  (`inCheck` of the engine interface.) -/
def inCheckB (bd : Board) (c : Color) : Bool :=
  match kingSquare bd c with
  | none => false
  | some ks =>
    squaresList.any fun sq =>
      match pieceAt bd sq with
      | some pc => pc.color ≠ c && attacks bd sq ks pc
      | none => false

/-- Movement legality of `pc` from `f` to `t` ignoring king safety: the pattern
of the piece, path obstruction, and the target not holding an own piece. -/
def pseudoLegalTo (bd : Board) (f t : Square) (pc : Piece) : Bool :=
  if f = t then false
  else if (match pieceAt bd t with
           | some tp => tp.color == pc.color
           | none => false) then false
  else
    match pc.ptype with
    | .p =>
      let dr := rankI t - rankI f
      let df := fileI t - fileI f
      let dir := pawnDir pc.color
      let startRank : Int := if pc.color = Color.w then 1 else 6
      (df == 0 && dr == dir && (pieceAt bd t).isNone)
        || (df == 0 && dr == 2 * dir && rankI f == startRank && (pieceAt bd t).isNone
              && (pieceAt bd (mkSq f.file.val (rankI f + dir).toNat)).isNone)
        || (df.natAbs == 1 && dr == dir && (pieceAt bd t).isSome)
    | _ => attacks bd f t pc

/-- Game state as consumed from the engine: board, side to move, and the
undo history (each entry one ply). -/
structure GameState where
  board : Board
  turn : Color
  history : List (Board × Color)
deriving DecidableEq, Repr

/-- Valid promotion choices (`q`, `r`, `b`, `n`). -/
def promoOk (pt : PieceType) : Bool :=
  pt == PieceType.q || pt == PieceType.r || pt == PieceType.b || pt == PieceType.n

/-- The piece that lands on the target square: the promotion choice (which
must be a valid one, and must be present) on a pawn reaching the farthest
rank, the moving piece itself otherwise. -/
def placedPiece (pc : Piece) (t : Square) (promo : Option PieceType) : Option Piece :=
  if pc.ptype == PieceType.p
      && ((pc.color == Color.w && t.rank.val == 7) || (pc.color == Color.b && t.rank.val == 0)) then
    match promo with
    | some pt => if promoOk pt then some ⟨pc.color, pt⟩ else none
    | none => none
  else some pc

/-- `applyMove(position, move) -> (newPosition | rejected)` of the engine
interface (spec section 6): full legality — piece present, side to move,
movement pattern, promotion piece required on the farthest rank, and the mover's
king not left in check.  On rejection the position is untouched (`none`). -/
def moveB (g : GameState) (f t : Square) (promo : Option PieceType) : Option GameState :=
  match pieceAt g.board f with
  | none => none
  | some pc =>
    if pc.color ≠ g.turn then none
    else if ¬ (pseudoLegalTo g.board f t pc = true) then none
    else
      match placedPiece pc t promo with
      | none => none
      | some pl =>
        if inCheckB (setSq (setSq g.board f none) t (some pl)) pc.color then none
        else some ⟨setSq (setSq g.board f none) t (some pl), g.turn.other,
          (g.board, g.turn) :: g.history⟩

/-- `undo()` of the engine: pop one ply, `none` when the history is empty. -/
def undoB (g : GameState) : Option GameState :=
  match g.history with
  | [] => none
  | (bd, c) :: h => some ⟨bd, c, h⟩

/-- The serialized position (`game.fen()`): board plus side to move. -/
abbrev Fen := Board × Color

/-- Serialize a game state. -/
def fenOf (g : GameState) : Fen := (g.board, g.turn)

/-- Load a serialized position: full replacement, history cleared. -/
def loadB (d : Fen) : GameState := ⟨d.1, d.2, []⟩

/-- Promotion alternatives to enumerate for a candidate `(from, to)` pair (the
engine lists each promotion piece as its own move). -/
def candPromos (g : GameState) (f t : Square) : List (Option PieceType) :=
  match pieceAt g.board f with
  | some pc =>
    if pc.ptype == PieceType.p
        && ((pc.color == Color.w && t.rank.val == 7) || (pc.color == Color.b && t.rank.val == 0)) then
      [some PieceType.q, some PieceType.r, some PieceType.b, some PieceType.n]
    else [none]
  | none => [none]

/-- All legal moves for color `c` (`legalMoves` of the engine interface, with
the side to move overridden as the source's `moves({ turn })` call requests). -/
def legalMovesFor (g : GameState) (c : Color) : List (Square × Square × Option PieceType) :=
  let g' : GameState := { g with turn := c }
  squaresList.flatMap fun f =>
    squaresList.flatMap fun t =>
      (candPromos g' f t).filterMap fun pr =>
        (moveB g' f t pr).map fun _ => (f, t, pr)

/-- Number of legal moves for color `c`. -/
def movesCount (g : GameState) (c : Color) : Nat := (legalMovesFor g c).length

/-- `isCheckmate()`: side to move in check with no legal move. -/
def isCheckmateB (g : GameState) : Bool :=
  inCheckB g.board g.turn && movesCount g g.turn == 0

/-- `isStalemate()`: side to move not in check with no legal move. -/
def isStalemateB (g : GameState) : Bool :=
  !inCheckB g.board g.turn && movesCount g g.turn == 0

/-- `isInsufficientMaterial()`: besides the kings at most one minor piece. -/
def insufficientMaterialB (g : GameState) : Bool :=
  match (g.board.filterMap id).filter (fun pc => pc.ptype ≠ PieceType.k) with
  | [] => true
  | [pc] => pc.ptype == PieceType.n || pc.ptype == PieceType.b
  | _ => false

/-- `isDraw()` of the engine interface (the draw kinds the model carries). -/
def isDrawB (g : GameState) : Bool := isStalemateB g || insufficientMaterialB g

/-- `isGameOver()`. -/
def isGameOverB (g : GameState) : Bool := isCheckmateB g || isDrawB g

/-- Piece placement of the initial back rank. -/
def backRank (f : Nat) : PieceType :=
  if f = 0 ∨ f = 7 then PieceType.r
  else if f = 1 ∨ f = 6 then PieceType.n
  else if f = 2 ∨ f = 5 then PieceType.b
  else if f = 3 then PieceType.q
  else PieceType.k

/-- Initial occupant of board index `i`. -/
def startPieceAt (i : Nat) : Option Piece :=
  let r := i / 8
  let f := i % 8
  if r = 1 then some ⟨Color.w, PieceType.p⟩
  else if r = 6 then some ⟨Color.b, PieceType.p⟩
  else if r = 0 then some ⟨Color.w, backRank f⟩
  else if r = 7 then some ⟨Color.b, backRank f⟩
  else none

/-- The initial board. -/
def startBoard : Board := (List.range 64).map startPieceAt

/-- The initial position (`new Chess()` / `game.reset()`). -/
def startGame : GameState := ⟨startBoard, Color.w, []⟩

/-! ## Static evaluation of the search opponent (`src/ai/engine.js`) -/

/-- Scores are JavaScript numbers; the source uses `-Infinity`/`Infinity` for
decided positions and exact dyadic/rational arithmetic otherwise, embedded here
as rationals with two infinities. -/
inductive EvalScore where
  | negInf
  | posInf
  | fin (q : ℚ)
deriving DecidableEq, Repr

/-- Piece values in centipawns (the `PV` table of the source). -/
def pv : PieceType → ℚ
  | .p => 100
  | .n => 320
  | .b => 330
  | .r => 500
  | .q => 900
  | .k => 20000

/-- Material term of `evaluate`: the double loop over `chess.board()`. -/
def materialQ (bd : Board) : ℚ :=
  bd.foldl
    (fun acc op =>
      match op with
      | some pc => acc + (if pc.color = Color.w then pv pc.ptype else -(pv pc.ptype))
      | none => acc)
    0

/-- The four center squares `d4`, `e4`, `d5`, `e5` of the source. -/
def centerSquares : List Square := [mkSq 3 3, mkSq 4 3, mkSq 3 4, mkSq 4 4]

/-- Center-occupancy term of `evaluate`: `+6` per white piece and `-6` per
black piece on a center square. -/
def centerQ (bd : Board) : ℚ :=
  centerSquares.foldl
    (fun acc sq =>
      match pieceAt bd sq with
      | some pc => acc + (if pc.color = Color.w then 6 else -6)
      | none => acc)
    0

/-- The `|| 1` of the source's mobility counts: a zero count becomes `1`. -/
def orOne (n : Nat) : Nat := if n = 0 then 1 else n

/-- `evaluate(chess)` of `src/ai/engine.js`: terminal checks first (checkmate
is `∓Infinity` by the side to move, draw kinds are `0`), then material plus
`0.05 * (wMoves - bMoves)` mobility plus the center bonus. -/
def evaluate (g : GameState) : EvalScore :=
  if isCheckmateB g then
    if g.turn = Color.w then EvalScore.negInf else EvalScore.posInf
  else if isDrawB g || isStalemateB g || insufficientMaterialB g then
    EvalScore.fin 0
  else
    EvalScore.fin
      (materialQ g.board
        + (1 / 20) * ((orOne (movesCount g Color.w) : ℚ) - (orOne (movesCount g Color.b) : ℚ))
        + centerQ g.board)

/-- The move value the engine's public API returns (`{from, to, promotion?}`).
Search internals (alpha-beta, randomness) are opaque to the arbiter; the
returned candidate enters the model as an event parameter. -/
structure EngineMove where
  fromSq : Square
  toSq : Square
  promotion : Option PieceType
deriving DecidableEq, Repr

/-! ## Application state (`src/src/App.jsx`)

One record field per `useState`/`useRef` of the component (render-only state
such as the 2d/3d switch, the room-code text field and the difficulty selector
carry no arbitration logic and are not modelled). -/

/-- The AI cancel token `aiJobRef.current = { id, cancelled }`. -/
structure AIJob where
  id : Nat
  cancelled : Bool
deriving DecidableEq, Repr

/-- Control messages (`{type:'assign'|'undo'|'reset', color?}`). -/
inductive CtrlMsg where
  | assign (c : Color)
  | undo
  | reset
deriving DecidableEq, Repr

/-- The three outbound message kinds of the session protocol. -/
inductive Msg where
  | move (f t : Square) (promo : Option PieceType)
  | sync (fen : Fen) (orient : Color)
  | ctrl (m : CtrlMsg)
deriving DecidableEq, Repr

/-- An inbound `fen` field of a sync payload: either a string parsing to a
position or a malformed string (the code distinguishes only by validation). -/
inductive FenField where
  | valid (d : Fen)
  | malformed (code : Nat)
deriving DecidableEq, Repr

/-- Diagnostics the sync path could surface to the user; the source never
surfaces any. -/
inductive Diagnostic where
  | malformedSync
deriving DecidableEq, Repr

/-- The component state of `App`. -/
structure AppState where
  game : GameState
  fen : Fen
  selected : Option Square
  orientation : Color
  pendingPromotion : Option (Square × Square)
  lastMove : Option (Square × Square)
  mpEnabled : Bool
  isHost : Bool
  myP2PColor : Option Color
  peerCount : Nat
  p2pConnected : Bool
  spEnabled : Bool
  spMyColor : Color
  aiJob : AIJob
deriving DecidableEq, Repr

/-- The initial component state. -/
def initialApp : AppState :=
  { game := startGame
    fen := fenOf startGame
    selected := none
    orientation := Color.w
    pendingPromotion := none
    lastMove := none
    mpEnabled := false
    isHost := false
    myP2PColor := none
    peerCount := 0
    p2pConnected := false
    spEnabled := true
    spMyColor := Color.w
    aiJob := ⟨0, false⟩ }

/-- `softResetSelections()`. -/
def softResetSelections (s : AppState) : AppState :=
  { s with selected := none, pendingPromotion := none, lastMove := none }

/-- `applyFenString(nextFen)`: `game.load` commits only a valid serialized
form (the engine validates before committing, spec section 4.1/6), then
`setFen(game.fen())` and `softResetSelections()`.  The handler inspects no
outcome and surfaces no diagnostic — the returned diagnostic list is the
(always empty) set of diagnostics this code path emits. -/
def applyFenString (f : FenField) (s : AppState) : AppState × List Diagnostic :=
  let g := match f with
    | .valid d => loadB d
    | .malformed _ => s.game
  (softResetSelections { s with game := g, fen := fenOf g }, [])

/-- `tryMove(from, to, promotion)`: delegate to the engine; on success commit
the new position, clear the selection and record the last move. -/
def tryMove (f t : Square) (promo : Option PieceType) (s : AppState) : AppState × Bool :=
  match moveB s.game f t promo with
  | some g' => ({ s with game := g', fen := fenOf g', selected := none, lastMove := some (f, t) }, true)
  | none => (s, false)

/-- `userIsAllowedToMoveAt(square)`: the P2P gate (your color, your turn, your
piece) followed by the single-player gate (human only on the human's turn). -/
def userIsAllowedToMoveAt (sq : Square) (s : AppState) : Bool :=
  (match s.mpEnabled, s.myP2PColor with
   | true, some c =>
     if s.game.turn ≠ c then false
     else
       match pieceAt s.game.board sq with
       | none => false
       | some pc => pc.color == c
   | _, _ => true)
  && (if s.spEnabled then s.game.turn == s.spMyColor else true)

/-- `cancelAI()`: set the cancel flag and bump the job id. -/
def cancelAI (s : AppState) : AppState :=
  { s with aiJob := ⟨s.aiJob.id + 1, true⟩ }

/-- Guard of `maybeMakeAIMove()`: single-player on, not the human's turn, game
not over. -/
def aiIssueGuard (s : AppState) : Bool :=
  s.spEnabled && s.game.turn ≠ s.spMyColor && !isGameOverB s.game

/-- `maybeMakeAIMove()` synchronous part: issue a fresh job (id bumped, not
cancelled).  The deferred `think` body runs later as its own event carrying the
captured job id. -/
def maybeMakeAIMove (s : AppState) : AppState :=
  if aiIssueGuard s then { s with aiJob := ⟨s.aiJob.id + 1, false⟩ } else s

/-- The move `think` builds from the engine's result: default the promotion to
queen when the engine moved a pawn to the first or last rank without naming
one; keep an engine-supplied promotion piece unchanged. -/
def thinkMove (best : EngineMove) (g : GameState) : Square × Square × Option PieceType :=
  let needsPromo : Bool := best.promotion.isSome
    || (match pieceAt g.board best.fromSq with
        | some pc => pc.ptype == PieceType.p && (best.toSq.rank.val == 7 || best.toSq.rank.val == 0)
        | none => false)
  (best.fromSq, best.toSq, if needsPromo then some (best.promotion.getD PieceType.q) else none)

/-- The deferred `think` callback: bail out when cancelled or superseded
(`jobId !== aiJobRef.current.id`), otherwise apply the engine's candidate
(`best` is the value `computeBestMove` returned, `none` when it found no
move). -/
def stepAiRun (jobId : Nat) (best : Option EngineMove) (s : AppState) : AppState × List Msg :=
  if s.aiJob.cancelled || jobId ≠ s.aiJob.id then (s, [])
  else
    match best with
    | none => (s, [])
    | some b =>
      let m := thinkMove b s.game
      ((tryMove m.1 m.2.1 m.2.2 s).1, [])

/-- `handleSquareClick(square)`. -/
def handleSquareClick (sq : Square) (s : AppState) : AppState × List Msg :=
  if s.pendingPromotion.isSome then (s, [])
  else
    match s.selected with
    | none =>
      if !userIsAllowedToMoveAt sq s then (s, [])
      else
        match pieceAt s.game.board sq with
        | some pc => if pc.color = s.game.turn then ({ s with selected := some sq }, []) else (s, [])
        | none => (s, [])
    | some sel =>
      if sq = sel then ({ s with selected := none }, [])
      else
        let isPromo : Bool :=
          match pieceAt s.game.board sel with
          | some pc =>
            pc.ptype == PieceType.p
              && ((pc.color == Color.w && sq.rank.val == 7) || (pc.color == Color.b && sq.rank.val == 0))
          | none => false
        if isPromo then ({ s with pendingPromotion := some (sel, sq) }, [])
        else
          let r := tryMove sel sq none s
          if r.2 then
            (maybeMakeAIMove r.1,
              if s.mpEnabled && s.p2pConnected then [Msg.move sel sq none] else [])
          else
            match pieceAt r.1.game.board sq with
            | some pc => if pc.color = r.1.game.turn then ({ r.1 with selected := some sq }, []) else (r.1, [])
            | none => (r.1, [])

/-- `choosePromotion(piece)`. -/
def choosePromotion (pt : PieceType) (s : AppState) : AppState × List Msg :=
  match s.pendingPromotion with
  | none => (s, [])
  | some (f, t) =>
    let r := tryMove f t (some pt) s
    let s' := { r.1 with pendingPromotion := none }
    if r.2 then
      (maybeMakeAIMove s',
        if s'.mpEnabled && s'.p2pConnected then [Msg.move f t (some pt)] else [])
    else (s', [])

/-- `resetGame(broadcast)`. -/
def resetGame (broadcast : Bool) (s : AppState) : AppState × List Msg :=
  let s1 := cancelAI s
  let s2 := softResetSelections { s1 with game := startGame, fen := fenOf startGame }
  if s2.mpEnabled && s2.p2pConnected && broadcast then
    (s2, Msg.ctrl CtrlMsg.reset ::
      (if s2.isHost then [Msg.sync (fenOf s2.game) s2.orientation] else []))
  else (s2, [])

/-- `undo(broadcast)`: cancel the AI first, then pop one ply when the history
is nonempty. -/
def undoFn (broadcast : Bool) (s : AppState) : AppState × List Msg :=
  let s1 := cancelAI s
  match undoB s1.game with
  | none => (s1, [])
  | some g' =>
    let s2 := softResetSelections { s1 with game := g', fen := fenOf g' }
    if s2.mpEnabled && s2.p2pConnected && broadcast then (s2, [Msg.ctrl CtrlMsg.undo])
    else (s2, [])

/-- The inbound `sync` handler: adopt the orientation when present, then load
the serialized position. -/
def onSyncMsg (ff : Option FenField) (o : Option Color) (s : AppState) : AppState × List Diagnostic :=
  let s1 := match o with
    | some ori => { s with orientation := ori }
    | none => s
  match ff with
  | some f => applyFenString f s1
  | none => (s1, [])

/-- The inbound `control` handler: `assign` sets the local color (anything but
white is read as black), `undo`/`reset` apply locally with `broadcast = false`. -/
def onCtrlMsg (m : CtrlMsg) (s : AppState) : AppState × List Msg :=
  match m with
  | .assign c => ({ s with myP2PColor := some (if c = Color.w then Color.w else Color.b) }, [])
  | .undo => undoFn false s
  | .reset => resetGame false s

/-- `updatePeerCount()`: re-derive the peer count, the host flag (`size === 0`)
and, for a fresh room, the white color. -/
def updatePeerCount (size : Nat) (s : AppState) : AppState :=
  let s1 := { s with peerCount := size, isHost := size = 0 }
  if size = 0 then { s1 with myP2PColor := some Color.w } else s1

/-- `connectRoom()` (with the transport reporting `size` current peers):
store the connection, run `updatePeerCount`, enable multiplayer, disable
single player. -/
def stepConnect (size : Nat) (s : AppState) : AppState × List Msg :=
  let s1 := updatePeerCount size { s with p2pConnected := true }
  ({ s1 with mpEnabled := true, spEnabled := false }, [])

/-- The `onPeerJoin` handler, with the transport now reporting `size` peers:
`updatePeerCount()` first, then the host branch sending sync + color
assignment. -/
def stepPeerJoin (size : Nat) (s : AppState) : AppState × List Msg :=
  let s1 := updatePeerCount size s
  if s1.isHost then
    ({ s1 with myP2PColor := some Color.w },
      [Msg.sync (fenOf s1.game) s1.orientation, Msg.ctrl (CtrlMsg.assign Color.b)])
  else (s1, [])

/-- The stimuli of the arbitration core: local user intents, inbound session
messages, session lifecycle callbacks, and the search opponent's scheduling
callbacks. -/
inductive Ev where
  | click (sq : Square)
  | promoChoice (pt : PieceType)
  | promoCancel
  | localUndo
  | localReset
  | recvMove (f t : Square) (promo : Option PieceType)
  | recvSync (ff : Option FenField) (o : Option Color)
  | recvCtrl (m : CtrlMsg)
  | connect (size : Nat)
  | peerJoin (size : Nat)
  | aiIssue
  | aiRun (jobId : Nat) (best : Option EngineMove)
deriving DecidableEq, Repr

/-- One step of the arbiter: the handler the source registers for each
stimulus, returning the next state and the outbound messages it sends. -/
def step (e : Ev) (s : AppState) : AppState × List Msg :=
  match e with
  | .click sq => handleSquareClick sq s
  | .promoChoice pt => choosePromotion pt s
  | .promoCancel => ({ s with pendingPromotion := none }, [])
  | .localUndo => undoFn true s
  | .localReset => resetGame true s
  | .recvMove f t pr => ((tryMove f t pr s).1, [])
  | .recvSync ff o => ((onSyncMsg ff o s).1, [])
  | .recvCtrl m => onCtrlMsg m s
  | .connect n => stepConnect n s
  | .peerJoin n => stepPeerJoin n s
  | .aiIssue => (maybeMakeAIMove s, [])
  | .aiRun j best => stepAiRun j best s

/-- Run a sequence of stimuli. -/
def runEvents (s : AppState) (evs : List Ev) : AppState :=
  evs.foldl (fun st e => (step e st).1) s

/-! ## Concrete scenario states -/

/-- Square `e2`. -/
def sqE2 : Square := mkSq 4 1

/-- Square `e4`. -/
def sqE4 : Square := mkSq 4 3

/-- Square `e7`. -/
def sqE7 : Square := mkSq 4 6

/-- Square `e8`. -/
def sqE8 : Square := mkSq 4 7

/-- A position with a white pawn on `e7` about to promote (kings on `e1` and
`h8`), white to move. -/
def gPawn : GameState :=
  ⟨setSq (setSq (setSq emptyBoard (mkSq 4 0) (some ⟨Color.w, PieceType.k⟩))
      (mkSq 7 7) (some ⟨Color.b, PieceType.k⟩))
      sqE7 (some ⟨Color.w, PieceType.p⟩),
    Color.w, []⟩

/-- A checkmate: black king `h8`, white queen `g7` guarded by the white king
on `g6`, black to move. -/
def gMate : GameState :=
  ⟨setSq (setSq (setSq emptyBoard (mkSq 7 7) (some ⟨Color.b, PieceType.k⟩))
      (mkSq 6 6) (some ⟨Color.w, PieceType.q⟩))
      (mkSq 6 5) (some ⟨Color.w, PieceType.k⟩),
    Color.b, []⟩

/-- Bare kings (`a1` versus `h8`), white to move: insufficient material. -/
def gKings : GameState :=
  ⟨setSq (setSq emptyBoard (mkSq 0 0) (some ⟨Color.w, PieceType.k⟩))
      (mkSq 7 7) (some ⟨Color.b, PieceType.k⟩),
    Color.w, []⟩

/-- Local-mode component state holding `gPawn` with the pawn selected and the
promotion dialog open for `e7 → e8`. -/
def sPromo : AppState :=
  { game := gPawn
    fen := fenOf gPawn
    selected := some sqE7
    orientation := Color.w
    pendingPromotion := some (sqE7, sqE8)
    lastMove := none
    mpEnabled := false
    isHost := false
    myP2PColor := none
    peerCount := 0
    p2pConnected := false
    spEnabled := false
    spMyColor := Color.w
    aiJob := ⟨0, false⟩ }

/-- A guest just connected to a room that already has one peer. -/
def sGuest : AppState := (stepConnect 1 initialApp).1

/-- The guest after selecting `e2` and then receiving `ctrl:assign` black while
the selection is still active. -/
def sRace : AppState :=
  runEvents initialApp [Ev.connect 1, Ev.click sqE2, Ev.recvCtrl (CtrlMsg.assign Color.b)]

/-- A host: first participant in the room (zero peers at join). -/
def sHost : AppState := (stepConnect 0 initialApp).1

/-- A live (non-terminal) position in which the side not to move has no legal
moves: white king `a1`, black queen `c2`, black king `h8`, black to move —
every white king move is covered by the queen, so White's legal-move count is
`0` and the source's `|| 1` clamp kicks in. -/
def gClamp : GameState :=
  ⟨setSq (setSq (setSq emptyBoard (mkSq 0 0) (some ⟨Color.w, PieceType.k⟩))
      (mkSq 2 1) (some ⟨Color.b, PieceType.q⟩))
      (mkSq 7 7) (some ⟨Color.b, PieceType.k⟩),
    Color.b, []⟩

/-- The interaction state the spec calls Idle: nothing selected and no pending
promotion. -/
def isIdle (s : AppState) : Bool := s.selected.isNone && s.pendingPromotion.isNone

/-- `sPromo` before the promotion dialog opened: the pawn is merely selected. -/
def sSel : AppState := { sPromo with pendingPromotion := none }

/-- The position after choosing the queen promotion from `gPawn`. -/
def gAfterPromo : GameState := (moveB gPawn sqE7 sqE8 (some PieceType.q)).getD startGame

/-- A connected guest after playing `e2e4` locally (history nonempty). -/
def sGuestMoved : AppState :=
  runEvents initialApp [Ev.connect 1, Ev.click sqE2, Ev.click sqE4]

/-- Single-player state right after the human played `e2e4`, which issued AI
job 1. -/
def sAI : AppState := runEvents initialApp [Ev.click sqE2, Ev.click sqE4]

/-- Turn-ownership invariant of the arbiter: whenever a square is selected, it
is the permitted local side's turn — the assigned color's turn in multiplayer,
the human's turn in single player. -/
abbrev TurnInv (s : AppState) : Prop :=
  (∀ c sq, s.mpEnabled = true → s.myP2PColor = some c → s.selected = some sq →
    s.game.turn = c)
  ∧ (∀ sq, s.spEnabled = true → s.selected = some sq → s.game.turn = s.spMyColor)

/-- No event that (re)assigns the local color or session role fires while a
square is selected (a received `assign` carrying the already-assigned color is
harmless). -/
def colorSafe (s : AppState) (e : Ev) : Bool :=
  match e with
  | Ev.recvCtrl (CtrlMsg.assign c) =>
    s.selected.isNone || s.myP2PColor == some (if c = Color.w then Color.w else Color.b)
  | Ev.connect _ => s.selected.isNone
  | Ev.peerJoin _ => s.selected.isNone
  | _ => true

/-- Events that supersede the pending search job: a local or received
undo/reset (each runs `cancelAI`), or issuing a fresh job. -/
abbrev Supersedes (e : Ev) (s : AppState) : Prop :=
  match e with
  | Ev.localUndo => True
  | Ev.localReset => True
  | Ev.recvCtrl CtrlMsg.undo => True
  | Ev.recvCtrl CtrlMsg.reset => True
  | Ev.aiIssue => aiIssueGuard s = true
  | _ => False

/-! ## Helper lemmas -/

theorem moveB_turn {g g' : GameState} {f t : Square} {promo : Option PieceType}
    (h : moveB g f t promo = some g') : g'.turn = g.turn.other := by
  unfold moveB at h
  repeat' split at h
  all_goals try exact Option.noConfusion h
  injection h with h
  subst h
  rfl

theorem tryMove_of_none {s : AppState} {f t : Square} {promo : Option PieceType}
    (h : moveB s.game f t promo = none) : tryMove f t promo s = (s, false) := by
  simp [tryMove, h]

theorem tryMove_of_some {s : AppState} {f t : Square} {promo : Option PieceType} {g' : GameState}
    (h : moveB s.game f t promo = some g') :
    tryMove f t promo s =
      ({ s with game := g', fen := fenOf g', selected := none, lastMove := some (f, t) }, true) := by
  simp [tryMove, h]

theorem tryMove_false_eq {s : AppState} {f t : Square} {promo : Option PieceType}
    (h : (tryMove f t promo s).2 = false) : (tryMove f t promo s).1 = s := by
  unfold tryMove at *
  cases hm : moveB s.game f t promo with
  | none => simp [hm]
  | some g' => rw [hm] at h; exact absurd h (by simp)

theorem tryMove_true_selected {s : AppState} {f t : Square} {promo : Option PieceType}
    (h : (tryMove f t promo s).2 = true) : ((tryMove f t promo s).1).selected = none := by
  unfold tryMove at *
  cases hm : moveB s.game f t promo with
  | none => rw [hm] at h; exact absurd h (by simp)
  | some g' => simp [hm]

theorem tryMove_aiJob (s : AppState) (f t : Square) (promo : Option PieceType) :
    ((tryMove f t promo s).1).aiJob = s.aiJob := by
  unfold tryMove
  cases moveB s.game f t promo <;> rfl

theorem maybeMakeAIMove_fields (s : AppState) :
    (maybeMakeAIMove s).game = s.game ∧ (maybeMakeAIMove s).selected = s.selected
    ∧ (maybeMakeAIMove s).pendingPromotion = s.pendingPromotion
    ∧ (maybeMakeAIMove s).mpEnabled = s.mpEnabled
    ∧ (maybeMakeAIMove s).myP2PColor = s.myP2PColor
    ∧ (maybeMakeAIMove s).spEnabled = s.spEnabled
    ∧ (maybeMakeAIMove s).spMyColor = s.spMyColor := by
  unfold maybeMakeAIMove
  split <;> simp

theorem turnInv_of_selected_none {s : AppState} (h : s.selected = none) : TurnInv s := by
  constructor
  · intro c sq _ _ hsel
    rw [h] at hsel
    exact Option.noConfusion hsel
  · intro sq _ hsel
    rw [h] at hsel
    exact Option.noConfusion hsel

theorem turnInv_congr {s s' : AppState}
    (hsel : s'.selected = s.selected) (hturn : s'.game.turn = s.game.turn)
    (hmp : s'.mpEnabled = s.mpEnabled) (hcol : s'.myP2PColor = s.myP2PColor)
    (hsp : s'.spEnabled = s.spEnabled) (hspc : s'.spMyColor = s.spMyColor)
    (h : TurnInv s) : TurnInv s' := by
  constructor
  · intro c sq hm hc hs
    rw [hmp] at hm
    rw [hcol] at hc
    rw [hsel] at hs
    rw [hturn]
    exact h.1 c sq hm hc hs
  · intro sq hp hs
    rw [hsp] at hp
    rw [hsel] at hs
    rw [hturn, hspc]
    exact h.2 sq hp hs

theorem tryMove_turnInv (s : AppState) (f t : Square) (promo : Option PieceType)
    (h : TurnInv s) : TurnInv ((tryMove f t promo s).1) := by
  unfold tryMove
  cases hm : moveB s.game f t promo with
  | none => simpa using h
  | some g' => exact turnInv_of_selected_none (by simp)

theorem userAllowed_mp {s : AppState} {sq : Square} {c : Color}
    (hmp : s.mpEnabled = true) (hcol : s.myP2PColor = some c)
    (h : userIsAllowedToMoveAt sq s = true) :
    s.game.turn = c ∧ ∃ pc, pieceAt s.game.board sq = some pc ∧ pc.color = c := by
  unfold userIsAllowedToMoveAt at h
  rw [hmp, hcol] at h
  rw [Bool.and_eq_true] at h
  have h1 := h.1
  dsimp only at h1
  by_cases ht : s.game.turn = c
  · rw [if_neg (not_not_intro ht)] at h1
    refine ⟨ht, ?_⟩
    cases hpc : pieceAt s.game.board sq with
    | none => rw [hpc] at h1; exact absurd h1 (by simp)
    | some pc => rw [hpc] at h1; exact ⟨pc, rfl, by simpa using h1⟩
  · rw [if_pos ht] at h1
    exact absurd h1 (by simp)

theorem userAllowed_sp {s : AppState} {sq : Square}
    (hsp : s.spEnabled = true) (h : userIsAllowedToMoveAt sq s = true) :
    s.game.turn = s.spMyColor := by
  unfold userIsAllowedToMoveAt at h
  rw [Bool.and_eq_true] at h
  have h2 := h.2
  rw [hsp] at h2
  simpa using h2

/-! ## Claim theorems -/

/-- C5: `tryMove` delegates legality to the rules engine; on success it commits
the new position (side to move flipped by the engine), on failure it performs
no mutation and reports failure.  Concretely, from the start position `e2e4`
is accepted (black to move afterwards) and a second `e2e4` is rejected with no
state change. -/
theorem claim5_applyMove :
    (∀ s f t promo, moveB s.game f t promo = none → tryMove f t promo s = (s, false))
    ∧ (∀ s f t promo g', moveB s.game f t promo = some g' →
        tryMove f t promo s =
          ({ s with game := g', fen := fenOf g', selected := none, lastMove := some (f, t) }, true)
        ∧ g'.turn = s.game.turn.other)
    ∧ ((tryMove sqE2 sqE4 none initialApp).2 = true
        ∧ ((tryMove sqE2 sqE4 none initialApp).1).game.turn = Color.b
        ∧ tryMove sqE2 sqE4 none ((tryMove sqE2 sqE4 none initialApp).1)
            = (((tryMove sqE2 sqE4 none initialApp).1), false)) := by
  refine ⟨?_, ?_, ?_⟩
  · intro s f t promo h
    exact tryMove_of_none h
  · intro s f t promo g' h
    exact ⟨tryMove_of_some h, moveB_turn h⟩
  · exact ⟨by decide, by decide, by decide⟩

/-- C5 witness: the generic rejection clause applied to the concrete repeated
`e2e4` attempt. -/
theorem claim5_witness :
    tryMove sqE2 sqE4 none ((tryMove sqE2 sqE4 none initialApp).1)
      = (((tryMove sqE2 sqE4 none initialApp).1), false) :=
  claim5_applyMove.1 ((tryMove sqE2 sqE4 none initialApp).1) sqE2 sqE4 none (by decide)

/-- C7: while a promotion is pending every local square click is ignored
(state and outbox untouched), but an inbound peer move still goes through
`tryMove` and, when the engine accepts it, updates the position. -/
theorem claim7_modal_lock :
    (∀ s sq a b', s.pendingPromotion = some (a, b') → step (Ev.click sq) s = (s, []))
    ∧ (∀ s a b' f t promo g', s.pendingPromotion = some (a, b') →
        moveB s.game f t promo = some g' →
        ((step (Ev.recvMove f t promo) s).1).game = g') := by
  constructor
  · intro s sq a b' h
    simp [step, handleSquareClick, h]
  · intro s a b' f t promo g' _ hm
    simp [step, tryMove, hm]

/-- C7 witness: with the `e7e8` promotion dialog open, a local click on `e2`
is ignored while the inbound peer move `e7e8=q` is applied. -/
theorem claim7_witness :
    step (Ev.click sqE2) sPromo = (sPromo, [])
    ∧ ((step (Ev.recvMove sqE7 sqE8 (some PieceType.q)) sPromo).1).game = gAfterPromo :=
  ⟨claim7_modal_lock.1 sPromo sqE2 sqE7 sqE8 rfl,
    claim7_modal_lock.2 sPromo sqE7 sqE8 sqE7 sqE8 (some PieceType.q) gAfterPromo rfl (by decide)⟩

/-- C8 (amended): a pawn click onto the farthest rank opens the promotion
dialog instead of moving; choosing a piece applies the move and returns to
Idle; cancelling clears only the pending promotion — the origin square stays
selected (state `Selected(from)`, not Idle) and the position is untouched. -/
theorem claim8_promotion :
    (∀ s sel sq c, s.pendingPromotion = none → s.selected = some sel → sq ≠ sel →
        pieceAt s.game.board sel = some ⟨c, PieceType.p⟩ →
        ((c = Color.w ∧ sq.rank.val = 7) ∨ (c = Color.b ∧ sq.rank.val = 0)) →
        step (Ev.click sq) s = ({ s with pendingPromotion := some (sel, sq) }, []))
    ∧ (∀ s f t pr g', s.pendingPromotion = some (f, t) →
        moveB s.game f t (some pr) = some g' →
        ((step (Ev.promoChoice pr) s).1).game = g'
          ∧ ((step (Ev.promoChoice pr) s).1).pendingPromotion = none
          ∧ ((step (Ev.promoChoice pr) s).1).selected = none)
    ∧ (∀ s, step Ev.promoCancel s = ({ s with pendingPromotion := none }, [])) := by
  refine ⟨?_, ?_, fun s => rfl⟩
  · intro s sel sq c hpend hsel hne hpc hrank
    simp only [step, handleSquareClick, hpend, hsel, Option.isSome_none, Bool.false_eq_true,
      if_false, if_neg hne]
    have hpromo : (match pieceAt s.game.board sel with
        | some pc => pc.ptype == PieceType.p
            && ((pc.color == Color.w && sq.rank.val == 7) || (pc.color == Color.b && sq.rank.val == 0))
        | none => false) = true := by
      rw [hpc]
      rcases hrank with ⟨hc, hr⟩ | ⟨hc, hr⟩ <;> simp [hc, hr]
    rw [if_pos hpromo]
  · intro s f t pr g' hpend hm
    have hmv := tryMove_of_some (s := s) hm
    simp only [step, choosePromotion, hpend, hmv]
    have hf := maybeMakeAIMove_fields
      ({ (tryMove f t (some pr) s).1 with pendingPromotion := none })
    rw [hmv] at hf
    simp_all

/-- C8 witness: the promotion clauses at the concrete `e7e8` scenario — the
click opens the dialog, choosing the queen applies `e7e8=q` and returns to
Idle. -/
theorem claim8_witness :
    step (Ev.click sqE8) sSel = ({ sSel with pendingPromotion := some (sqE7, sqE8) }, [])
    ∧ ((step (Ev.promoChoice PieceType.q) sPromo).1).game = gAfterPromo
    ∧ ((step (Ev.promoChoice PieceType.q) sPromo).1).pendingPromotion = none
    ∧ ((step (Ev.promoChoice PieceType.q) sPromo).1).selected = none := by
  refine ⟨claim8_promotion.1 sSel sqE7 sqE8 Color.w rfl rfl (by decide) (by decide)
    (Or.inl ⟨rfl, rfl⟩), ?_⟩
  exact claim8_promotion.2.1 sPromo sqE7 sqE8 PieceType.q gAfterPromo rfl (by decide)

/-- C8 counterexample: cancelling the `e7e8` promotion leaves the origin
square selected — the interaction state is not Idle, refuting "cancel returns
to Idle" (the position is indeed unchanged). -/
theorem claim8_cancel_cex :
    isIdle ((step Ev.promoCancel sPromo).1) = false
    ∧ ((step Ev.promoCancel sPromo).1).selected = some sqE7
    ∧ ((step Ev.promoCancel sPromo).1).pendingPromotion = none
    ∧ ((step Ev.promoCancel sPromo).1).game = sPromo.game := by
  decide

/-- C10: the `think` callback defaults the promotion to queen when the engine
returned a pawn move to the first or last rank with no promotion field, keeps
an engine-supplied promotion piece unchanged, and applies the resulting move
through `tryMove` when the job is still current. -/
theorem claim10_promotion_default :
    (∀ b g c, b.promotion = none → pieceAt g.board b.fromSq = some ⟨c, PieceType.p⟩ →
        (b.toSq.rank.val = 7 ∨ b.toSq.rank.val = 0) →
        thinkMove b g = (b.fromSq, b.toSq, some PieceType.q))
    ∧ (∀ b g pr, b.promotion = some pr → thinkMove b g = (b.fromSq, b.toSq, some pr))
    ∧ (∀ s j b, s.aiJob.cancelled = false → j = s.aiJob.id →
        stepAiRun j (some b) s =
          ((tryMove (thinkMove b s.game).1 (thinkMove b s.game).2.1 (thinkMove b s.game).2.2 s).1,
            [])) := by
  refine ⟨?_, ?_, ?_⟩
  · intro b g c hnone hpc hrank
    unfold thinkMove
    rw [hnone, hpc]
    rcases hrank with hr | hr <;> simp [hr]
  · intro b g pr hsome
    unfold thinkMove
    rw [hsome]
    simp
  · intro s j b hcanc hid
    simp [stepAiRun, hcanc, hid]

/-- C10 witness: an engine result `e7e8` with no promotion field on the pawn
position is defaulted to queen; an explicit rook promotion is kept. -/
theorem claim10_witness :
    thinkMove ⟨sqE7, sqE8, none⟩ gPawn = (sqE7, sqE8, some PieceType.q)
    ∧ thinkMove ⟨sqE7, sqE8, some PieceType.r⟩ gPawn = (sqE7, sqE8, some PieceType.r) :=
  ⟨claim10_promotion_default.1 ⟨sqE7, sqE8, none⟩ gPawn Color.w rfl (by decide) (Or.inl rfl),
    claim10_promotion_default.2.1 ⟨sqE7, sqE8, some PieceType.r⟩ gPawn PieceType.r rfl⟩

/-- C9 (amended): the search opponent's static evaluation — checkmate is the
maximal-magnitude score signed against the side to move, the draw kinds score
the neutral `0`, and otherwise the score decomposes into material balance plus
`1/20` of the difference between White's and Black's legal-move counts *each
floored at one* (the source clamps a zero count to `1` via `|| 1`), plus the
center-occupancy bonus. -/
theorem claim9_evaluation :
    (∀ g, isCheckmateB g = true →
        evaluate g = (if g.turn = Color.w then EvalScore.negInf else EvalScore.posInf))
    ∧ (∀ g, isCheckmateB g = false →
        (isDrawB g || isStalemateB g || insufficientMaterialB g) = true →
        evaluate g = EvalScore.fin 0)
    ∧ (∀ g, isCheckmateB g = false →
        (isDrawB g || isStalemateB g || insufficientMaterialB g) = false →
        evaluate g = EvalScore.fin (materialQ g.board
          + (1 / 20) * ((orOne (movesCount g Color.w) : ℚ)
              - (orOne (movesCount g Color.b) : ℚ))
          + centerQ g.board)) := by
  refine ⟨?_, ?_, ?_⟩
  · intro g h
    simp [evaluate, h]
  · intro g h1 h2
    simp [evaluate, h1, h2]
  · intro g h1 h2
    simp [evaluate, h1, h2]

set_option maxRecDepth 400000 in
/-- C9 witness: the three clauses at the checkmate position `gMate`, the bare
kings `gKings`, and the live position `gPawn`. -/
theorem claim9_witness :
    evaluate gMate = EvalScore.posInf
    ∧ evaluate gKings = EvalScore.fin 0
    ∧ evaluate gPawn = EvalScore.fin (materialQ gPawn.board
        + (1 / 20) * ((orOne (movesCount gPawn Color.w) : ℚ)
            - (orOne (movesCount gPawn Color.b) : ℚ))
        + centerQ gPawn.board) :=
  ⟨claim9_evaluation.1 gMate (by decide),
    claim9_evaluation.2.1 gKings (by decide) (by decide),
    claim9_evaluation.2.2 gPawn (by decide) (by decide)⟩

set_option maxRecDepth 400000 in
/-- C9 counterexample: `gClamp` is live (not checkmate, not a draw kind) yet
White's legal-move count is `0`; there the source's `|| 1` clamp makes the
mobility term `1/20 * (1 - 26)`, so the evaluation differs from the value the
claim states with the raw counts — the claimed raw-count decomposition is
false for this position. -/
theorem claim9_mobility_cex :
    isCheckmateB gClamp = false
    ∧ (isDrawB gClamp || isStalemateB gClamp || insufficientMaterialB gClamp) = false
    ∧ movesCount gClamp Color.w = 0
    ∧ evaluate gClamp ≠ EvalScore.fin (materialQ gClamp.board
        + (1 / 20) * ((movesCount gClamp Color.w : ℚ) - (movesCount gClamp Color.b : ℚ))
        + centerQ gClamp.board) := by
  have h1 : isCheckmateB gClamp = false := by decide
  have h2 : (isDrawB gClamp || isStalemateB gClamp || insufficientMaterialB gClamp) = false := by
    decide
  have hw : movesCount gClamp Color.w = 0 := by decide
  have hb : movesCount gClamp Color.b = 26 := by decide
  refine ⟨h1, h2, hw, ?_⟩
  have heval : evaluate gClamp = EvalScore.fin (materialQ gClamp.board
      + (1 / 20) * ((orOne (movesCount gClamp Color.w) : ℚ)
          - (orOne (movesCount gClamp Color.b) : ℚ))
      + centerQ gClamp.board) := by
    simp [evaluate, h1, h2]
  intro heq
  rw [heval, hw, hb] at heq
  simp only [EvalScore.fin.injEq] at heq
  norm_num [orOne] at heq

/-- C4 (amended): an inbound sync whose serialized state is malformed never
mutates the Position — the engine validates before committing and the handler
is total, so nothing is thrown — but, against the claim, no diagnostic is
surfaced (the handler ignores the load outcome entirely; it even still clears
the selection state). -/
theorem claim4_malformed_sync :
    ∀ s code o,
      ((onSyncMsg (some (FenField.malformed code)) o s).1).game = s.game
      ∧ ((onSyncMsg (some (FenField.malformed code)) o s).1).fen = fenOf s.game
      ∧ (onSyncMsg (some (FenField.malformed code)) o s).2 = []
      ∧ ((onSyncMsg (some (FenField.malformed code)) o s).1).selected = none := by
  intro s code o
  cases o <;> simp [onSyncMsg, applyFenString, softResetSelections]

/-- C4 counterexample: on a concrete malformed sync the handler's diagnostic
output is empty — no diagnostic is surfaced, refuting "the sync is dropped
with a diagnostic" (the position is indeed unchanged). -/
theorem claim4_no_diagnostic_cex :
    (onSyncMsg (some (FenField.malformed 0)) none sPromo).2 = []
    ∧ ((onSyncMsg (some (FenField.malformed 0)) none sPromo).1).game = sPromo.game := by
  decide

/-- C6 (the code bug): the first participant does become host with color
white, but when a peer then joins, `updatePeerCount` re-derives `isHost` from
the now-positive peer count before the host branch runs — so the host sends
neither the sync nor the `assign:black` control message (in the React runtime
the closure over `isHost` is additionally stale-false). -/
theorem claim6_host_sync_bug :
    sHost.isHost = true ∧ sHost.myP2PColor = some Color.w
    ∧ (step (Ev.peerJoin 1) sHost).2 = []
    ∧ ((step (Ev.peerJoin 1) sHost).1).isHost = false := by
  decide

/-- C2 (amended): a peer-received `control:undo`/`control:reset` applies the
action locally and re-emits nothing (broadcast suppression); a locally
initiated reset while connected emits exactly one `control:reset`; a locally
initiated undo while connected emits exactly one `control:undo` when the
history is nonempty — but an undo on empty history is a no-op that emits no
message at all. -/
theorem claim2_ctrl_echo :
    (∀ s, (onCtrlMsg CtrlMsg.undo s).2 = [] ∧ (onCtrlMsg CtrlMsg.reset s).2 = [])
    ∧ (∀ s g', undoB s.game = some g' → ((onCtrlMsg CtrlMsg.undo s).1).game = g')
    ∧ (∀ s, ((onCtrlMsg CtrlMsg.reset s).1).game = startGame)
    ∧ (∀ s, s.mpEnabled = true → s.p2pConnected = true →
        ((resetGame true s).2).count (Msg.ctrl CtrlMsg.reset) = 1)
    ∧ (∀ s g', s.mpEnabled = true → s.p2pConnected = true → undoB s.game = some g' →
        (undoFn true s).2 = [Msg.ctrl CtrlMsg.undo])
    ∧ (∀ s, undoB s.game = none → (undoFn true s).2 = []) := by
  refine ⟨?_, ?_, ?_, ?_, ?_, ?_⟩
  · intro s
    constructor
    · simp only [onCtrlMsg, undoFn, cancelAI]
      split <;> simp
    · simp [onCtrlMsg, resetGame]
  · intro s g' h
    simp only [onCtrlMsg, undoFn, cancelAI]
    have h' : undoB { s with aiJob := ⟨s.aiJob.id + 1, true⟩ }.game = some g' := h
    rw [h']
    simp [softResetSelections]
  · intro s
    simp [onCtrlMsg, resetGame, softResetSelections, cancelAI]
  · intro s hmp hconn
    simp only [resetGame, cancelAI, softResetSelections, hmp, hconn]
    simp only [Bool.and_self, Bool.true_and, if_true]
    split <;> simp [List.count_cons]
  · intro s g' hmp hconn h
    simp only [undoFn, cancelAI]
    have h' : undoB { s with aiJob := ⟨s.aiJob.id + 1, true⟩ }.game = some g' := h
    rw [h']
    simp [softResetSelections, hmp, hconn]
  · intro s h
    simp only [undoFn, cancelAI]
    have h' : undoB { s with aiJob := ⟨s.aiJob.id + 1, true⟩ }.game = none := h
    rw [h']

/-- C2 counterexample: a connected guest with empty history — a locally
initiated undo emits no control message, refuting "a locally initiated
reset/undo while connected emits exactly one control message". -/
theorem claim2_undo_cex :
    sGuest.mpEnabled = true ∧ sGuest.p2pConnected = true ∧ sGuest.game.history = []
    ∧ (step Ev.localUndo sGuest).2 = [] := by
  decide

/-- C2 witness: the connected guest emits exactly one `control:reset` on a
local reset, exactly one `control:undo` on a local undo with nonempty history,
and applies a received `control:undo` by popping the ply. -/
theorem claim2_witness :
    ((resetGame true sGuest).2).count (Msg.ctrl CtrlMsg.reset) = 1
    ∧ (undoFn true sGuestMoved).2 = [Msg.ctrl CtrlMsg.undo]
    ∧ ((onCtrlMsg CtrlMsg.undo sGuestMoved).1).game = startGame :=
  ⟨claim2_ctrl_echo.2.2.2.1 sGuest (by decide) (by decide),
    claim2_ctrl_echo.2.2.2.2.1 sGuestMoved startGame (by decide) (by decide) (by decide),
    claim2_ctrl_echo.2.1 sGuestMoved startGame (by decide)⟩

/-! ## Search-job generation counting (for C3) -/

theorem maybeMakeAIMove_id_le (s : AppState) :
    s.aiJob.id ≤ (maybeMakeAIMove s).aiJob.id := by
  unfold maybeMakeAIMove
  split <;> simp

theorem ai_id_le_of_eq {s s' : AppState} (h : s'.aiJob = s.aiJob) :
    s.aiJob.id ≤ (maybeMakeAIMove s').aiJob.id := by
  have h2 := maybeMakeAIMove_id_le s'
  rw [h] at h2
  exact h2

theorem undoFn_id_lt (b : Bool) (s : AppState) :
    s.aiJob.id < ((undoFn b s).1).aiJob.id := by
  unfold undoFn cancelAI
  cases h : undoB s.game with
  | none => simp [h]
  | some g' =>
    simp only [h]
    split <;> simp [softResetSelections]

theorem resetGame_id_lt (b : Bool) (s : AppState) :
    s.aiJob.id < ((resetGame b s).1).aiJob.id := by
  unfold resetGame cancelAI
  dsimp only
  split <;> simp [softResetSelections]

theorem promoChoice_id_le (pt : PieceType) (s : AppState) :
    s.aiJob.id ≤ ((choosePromotion pt s).1).aiJob.id := by
  unfold choosePromotion
  dsimp only
  split
  · exact Nat.le_refl _
  · split
    · apply ai_id_le_of_eq
      simp [tryMove_aiJob]
    · simp [tryMove_aiJob]

theorem click_id_le (sq : Square) (s : AppState) :
    s.aiJob.id ≤ ((handleSquareClick sq s).1).aiJob.id := by
  unfold handleSquareClick
  dsimp only
  split
  · exact Nat.le_refl _
  · split
    · split
      · exact Nat.le_refl _
      · split
        · split
          · exact Nat.le_refl _
          · exact Nat.le_refl _
        · exact Nat.le_refl _
    · split
      · exact Nat.le_refl _
      · split
        · exact Nat.le_refl _
        · split
          · apply ai_id_le_of_eq
            simp [tryMove_aiJob]
          · split
            · split
              · simp [tryMove_aiJob]
              · simp [tryMove_aiJob]
            · simp [tryMove_aiJob]

theorem onSyncMsg_aiJob (ff : Option FenField) (o : Option Color) (s : AppState) :
    ((onSyncMsg ff o s).1).aiJob = s.aiJob := by
  unfold onSyncMsg applyFenString softResetSelections
  cases ff with
  | none => cases o <;> simp
  | some f => cases o <;> cases f <;> simp

theorem step_aiJob_id_le (e : Ev) (s : AppState) :
    s.aiJob.id ≤ ((step e s).1).aiJob.id := by
  cases e with
  | click sq => exact click_id_le sq s
  | promoChoice pt => exact promoChoice_id_le pt s
  | promoCancel => exact Nat.le_refl _
  | localUndo => exact Nat.le_of_lt (undoFn_id_lt true s)
  | localReset => exact Nat.le_of_lt (resetGame_id_lt true s)
  | recvMove f t pr => simp [step, tryMove_aiJob]
  | recvSync ff o => simp [step, onSyncMsg_aiJob]
  | recvCtrl m =>
    cases m with
    | assign c => exact Nat.le_refl _
    | undo => exact Nat.le_of_lt (undoFn_id_lt false s)
    | reset => exact Nat.le_of_lt (resetGame_id_lt false s)
  | connect n =>
    simp only [step]
    unfold stepConnect updatePeerCount
    dsimp only
    split <;> simp
  | peerJoin n =>
    simp only [step]
    unfold stepPeerJoin updatePeerCount
    dsimp only
    split <;> split <;> simp
  | aiIssue => exact maybeMakeAIMove_id_le s
  | aiRun j best =>
    simp only [step]
    unfold stepAiRun
    dsimp only
    split
    · exact Nat.le_refl _
    · split
      · exact Nat.le_refl _
      · simp [tryMove_aiJob]

theorem runEvents_aiJob_id_le (tr : List Ev) (s : AppState) :
    s.aiJob.id ≤ (runEvents s tr).aiJob.id := by
  induction tr generalizing s with
  | nil => exact Nat.le_refl _
  | cons e tr ih =>
    have hstep : runEvents s (e :: tr) = runEvents ((step e s).1) tr := rfl
    rw [hstep]
    exact Nat.le_trans (step_aiJob_id_le e s) (ih ((step e s).1))

theorem supersedes_id_lt {e : Ev} {s : AppState} (h : Supersedes e s) :
    s.aiJob.id < ((step e s).1).aiJob.id := by
  cases e with
  | localUndo => exact undoFn_id_lt true s
  | localReset => exact resetGame_id_lt true s
  | recvCtrl m =>
    cases m with
    | assign c => exact False.elim h
    | undo => exact undoFn_id_lt false s
    | reset => exact resetGame_id_lt false s
  | aiIssue =>
    have hg : aiIssueGuard s = true := h
    simp only [step]
    unfold maybeMakeAIMove
    rw [if_pos hg]
    simp
  | click sq => exact False.elim h
  | promoChoice pt => exact False.elim h
  | promoCancel => exact False.elim h
  | recvMove f t pr => exact False.elim h
  | recvSync ff o => exact False.elim h
  | connect n => exact False.elim h
  | peerJoin n => exact False.elim h
  | aiRun j best => exact False.elim h

/-- C3: a search job's result is applied only while its captured id still
equals the latest issued id and the job is uncancelled — once a superseding
event (an undo/reset, which runs `cancelAI`, or the issue of a fresh job)
intervenes, the stale callback leaves the state untouched and emits nothing,
no matter what other events ran in between (job ids never decrease). -/
theorem claim3_stale_job_discard :
    ∀ s e tr a best, s.aiJob.id = a → Supersedes e s →
      stepAiRun a best (runEvents ((step e s).1) tr)
        = (runEvents ((step e s).1) tr, []) := by
  intro s e tr a best hid hsup
  have h1 : a < ((step e s).1).aiJob.id := hid ▸ supersedes_id_lt hsup
  have h2 := runEvents_aiJob_id_le tr ((step e s).1)
  have hne : a ≠ (runEvents ((step e s).1) tr).aiJob.id := by omega
  unfold stepAiRun
  rw [if_pos (by simp [hne])]

set_option maxRecDepth 400000 in
/-- C3 witness: the human's `e2e4` issued job 1; a local undo supersedes it,
and the stale callback for job 1 changes nothing. -/
theorem claim3_witness :
    stepAiRun 1 none (runEvents ((step Ev.localUndo sAI).1) [])
      = (runEvents ((step Ev.localUndo sAI).1) [], []) :=
  claim3_stale_job_discard sAI Ev.localUndo [] 1 none (by decide) (by trivial)

theorem turnInv_undoFn (b : Bool) (s : AppState) (h : TurnInv s) :
    TurnInv ((undoFn b s).1) := by
  unfold undoFn cancelAI
  cases hu : undoB s.game with
  | none =>
    simp only [hu]
    exact turnInv_congr rfl rfl rfl rfl rfl rfl h
  | some g' =>
    simp only [hu]
    split <;> exact turnInv_of_selected_none rfl

theorem turnInv_reset (b : Bool) (s : AppState) (_ : TurnInv s) :
    TurnInv ((resetGame b s).1) := by
  unfold resetGame cancelAI
  dsimp only
  split <;> exact turnInv_of_selected_none rfl

theorem turnInv_onSync (ff : Option FenField) (o : Option Color) (s : AppState)
    (h : TurnInv s) : TurnInv ((onSyncMsg ff o s).1) := by
  unfold onSyncMsg applyFenString softResetSelections
  cases ff with
  | some f => cases o <;> cases f <;> exact turnInv_of_selected_none rfl
  | none =>
    cases o with
    | none => exact h
    | some ori => exact turnInv_congr rfl rfl rfl rfl rfl rfl h

theorem turnInv_promoChoice (pt : PieceType) (s : AppState) (h : TurnInv s) :
    TurnInv ((choosePromotion pt s).1) := by
  unfold choosePromotion
  dsimp only
  split
  · exact h
  · next f t _ =>
    split
    · next hcond =>
      apply turnInv_of_selected_none
      rw [(maybeMakeAIMove_fields _).2.1]
      exact tryMove_true_selected hcond
    · next hcond =>
      have hr : ((tryMove f t (some pt) s).1) = s := tryMove_false_eq (by simpa using hcond)
      rw [hr]
      exact turnInv_congr rfl rfl rfl rfl rfl rfl h

theorem stepConnect_selected (n : Nat) (s : AppState) :
    ((stepConnect n s).1).selected = s.selected := by
  unfold stepConnect updatePeerCount
  dsimp only
  split <;> rfl

theorem stepPeerJoin_selected (n : Nat) (s : AppState) :
    ((stepPeerJoin n s).1).selected = s.selected := by
  unfold stepPeerJoin updatePeerCount
  dsimp only
  repeat' split
  all_goals rfl

theorem turnInv_click (sq : Square) {s : AppState} (h : TurnInv s) :
    TurnInv ((handleSquareClick sq s).1) := by
  unfold handleSquareClick
  dsimp only
  split
  · exact h
  · split
    · next hsel =>
      split
      · exact h
      · next hallow =>
        have hu : userIsAllowedToMoveAt sq s = true := by simpa using hallow
        split
        · next pc hpc =>
          split
          · next hcolor =>
            constructor
            · intro c sq' hmp hcol _
              exact (userAllowed_mp hmp hcol hu).1
            · intro sq' hsp _
              exact userAllowed_sp hsp hu
          · exact h
        · exact h
    · next sel hsel =>
      split
      · exact turnInv_of_selected_none rfl
      · split
        · exact turnInv_congr rfl rfl rfl rfl rfl rfl h
        · split
          · next hcond =>
            apply turnInv_of_selected_none
            rw [(maybeMakeAIMove_fields _).2.1]
            exact tryMove_true_selected hcond
          · next hcond =>
            have hr : ((tryMove sel sq none s).1) = s :=
              tryMove_false_eq (by simpa using hcond)
            rw [hr]
            split
            · next pc hpc =>
              split
              · next hcolor =>
                constructor
                · intro c sq' hmp hcol _
                  exact h.1 c sel hmp hcol hsel
                · intro sq' hsp _
                  exact h.2 sel hsp hsel
              · exact h
            · exact h

theorem turnInv_step {s : AppState} (e : Ev) (h : TurnInv s)
    (hsafe : colorSafe s e = true) : TurnInv ((step e s).1) := by
  cases e with
  | click sq => exact turnInv_click sq h
  | promoChoice pt => exact turnInv_promoChoice pt s h
  | promoCancel => exact turnInv_congr rfl rfl rfl rfl rfl rfl h
  | localUndo => exact turnInv_undoFn true s h
  | localReset => exact turnInv_reset true s h
  | recvMove f t pr => exact tryMove_turnInv s f t pr h
  | recvSync ff o => exact turnInv_onSync ff o s h
  | recvCtrl m =>
    cases m with
    | assign c =>
      cases ho : s.selected.isNone with
      | true => exact turnInv_of_selected_none (Option.isNone_iff_eq_none.mp ho)
      | false =>
        have h2 : (s.selected.isNone
            || (s.myP2PColor == some (if c = Color.w then Color.w else Color.b))) = true := hsafe
        rw [ho] at h2
        have hc : s.myP2PColor = some (if c = Color.w then Color.w else Color.b) := by
          simpa using h2
        refine turnInv_congr ?_ ?_ ?_ ?_ ?_ ?_ h
        · rfl
        · rfl
        · rfl
        · exact hc.symm
        · rfl
        · rfl
    | undo => exact turnInv_undoFn false s h
    | reset => exact turnInv_reset false s h
  | connect n =>
    simp only [step]
    apply turnInv_of_selected_none
    rw [stepConnect_selected]
    exact Option.isNone_iff_eq_none.mp hsafe
  | peerJoin n =>
    simp only [step]
    apply turnInv_of_selected_none
    rw [stepPeerJoin_selected]
    exact Option.isNone_iff_eq_none.mp hsafe
  | aiIssue =>
    simp only [step]
    have hf := maybeMakeAIMove_fields s
    exact turnInv_congr hf.2.1 (by rw [hf.1]) hf.2.2.2.1 hf.2.2.2.2.1 hf.2.2.2.2.2.1
      hf.2.2.2.2.2.2 h
  | aiRun j best =>
    simp only [step]
    unfold stepAiRun
    dsimp only
    split
    · exact h
    · split
      · exact h
      · exact tryMove_turnInv s _ _ _ h

/-- C1 (amended): with an assigned color, a first click is accepted as a
selection only on that color's turn and on a piece of that color (in
single-player mode only on the human's turn); and as long as no session event
reassigns the local color while a square is selected, the turn-ownership
invariant is preserved by every stimulus, so a click can change the position
only on the permitted side's turn. -/
theorem claim1_move_permission :
    (∀ s sq c, s.pendingPromotion = none → s.selected = none →
        s.mpEnabled = true → s.myP2PColor = some c →
        ((step (Ev.click sq) s).1).selected ≠ none →
        s.game.turn = c ∧ ∃ pc, pieceAt s.game.board sq = some pc ∧ pc.color = c)
    ∧ (∀ s sq, s.pendingPromotion = none → s.selected = none → s.spEnabled = true →
        ((step (Ev.click sq) s).1).selected ≠ none → s.game.turn = s.spMyColor)
    ∧ (∀ s e, TurnInv s → colorSafe s e = true → TurnInv ((step e s).1))
    ∧ (∀ s sq c, TurnInv s → s.mpEnabled = true → s.myP2PColor = some c →
        ((step (Ev.click sq) s).1).game ≠ s.game → s.game.turn = c)
    ∧ (∀ s sq, TurnInv s → s.spEnabled = true →
        ((step (Ev.click sq) s).1).game ≠ s.game → s.game.turn = s.spMyColor) := by
  refine ⟨?_, ?_, fun s e h hsafe => turnInv_step e h hsafe, ?_, ?_⟩
  · intro s sq c hpend hsel hmp hcol hne
    by_cases hu : userIsAllowedToMoveAt sq s = true
    · exact userAllowed_mp hmp hcol hu
    · exfalso
      apply hne
      have hu' : userIsAllowedToMoveAt sq s = false := by simpa using hu
      simp [step, handleSquareClick, hpend, hsel, hu']
  · intro s sq hpend hsel hsp hne
    by_cases hu : userIsAllowedToMoveAt sq s = true
    · exact userAllowed_sp hsp hu
    · exfalso
      apply hne
      have hu' : userIsAllowedToMoveAt sq s = false := by simpa using hu
      simp [step, handleSquareClick, hpend, hsel, hu']
  · intro s sq c hInv hmp hcol hdiff
    by_cases hp : s.pendingPromotion.isSome = true
    · exfalso
      apply hdiff
      simp [step, handleSquareClick, hp]
    · cases hsel : s.selected with
      | some sel => exact hInv.1 c sel hmp hcol hsel
      | none =>
        exfalso
        apply hdiff
        have hp' : s.pendingPromotion.isSome = false := by simpa using hp
        simp only [step, handleSquareClick, hp', Bool.false_eq_true, if_false, hsel]
        repeat' split
        all_goals rfl
  · intro s sq hInv hsp hdiff
    by_cases hp : s.pendingPromotion.isSome = true
    · exfalso
      apply hdiff
      simp [step, handleSquareClick, hp]
    · cases hsel : s.selected with
      | some sel => exact hInv.2 sel hsp hsel
      | none =>
        exfalso
        apply hdiff
        have hp' : s.pendingPromotion.isSome = false := by simpa using hp
        simp only [step, handleSquareClick, hp', Bool.false_eq_true, if_false, hsel]
        repeat' split
        all_goals rfl

/-- C1 counterexample: a guest selects `e2` before any color is assigned;
`ctrl:assign black` then arrives while the selection is active, and the next
click applies white's `e2e4` even though the locally assigned color is black
and it is not black's turn — a move intent violating the rule is applied. -/
theorem claim1_assign_race_cex :
    sRace.mpEnabled = true ∧ sRace.myP2PColor = some Color.b
    ∧ sRace.game.turn = Color.w
    ∧ ((step (Ev.click sqE4) sRace).1).game ≠ sRace.game := by
  decide

/-- C1 witness: the host (white, on turn) has a click on `e2` accepted, the
invariant is preserved by that click, and the subsequent `e2e4` click changes
the position only because it is white's turn. -/
theorem claim1_witness :
    (sHost.game.turn = Color.w
        ∧ ∃ pc, pieceAt sHost.game.board sqE2 = some pc ∧ pc.color = Color.w)
    ∧ TurnInv ((step (Ev.click sqE2) sHost).1)
    ∧ ((step (Ev.click sqE2) sHost).1).game.turn = Color.w :=
  ⟨claim1_move_permission.1 sHost sqE2 Color.w (by decide) (by decide) (by decide) (by decide)
      (by decide),
    claim1_move_permission.2.2.1 sHost (Ev.click sqE2) (by decide) (by decide),
    claim1_move_permission.2.2.2.1 ((step (Ev.click sqE2) sHost).1) sqE4 Color.w (by decide)
      (by decide) (by decide) (by decide)⟩
